import Mathlib

/-!
Verification of the TakaichiRAG site crawler (`src/scraper/crawler.py`,
`src/scraper/parser.py`) against its natural-language specification.

The crawler is shallowly embedded: the network is a function from URL to a
fetch outcome, BeautifulSoup parsing is abstracted by an `Html` structure
carrying the values the parser's selectors would return, and the crawler's
mutable object state (`visited_urls`, `scraped_data`, `timestamp`,
`saved_files`) becomes an explicit `CrawlState` threaded through every
strategy.  A `trace` field records the ordered sequence of fetch attempts
and politeness sleeps, so temporal properties about fetching and delays
become properties of a list of events.
-/

namespace TakaichiRAG

/-! ## Python whitespace

`re.sub(r'\s+', ...)`, `str.split()`, and `str.strip()` all use the same
whitespace class.  We model its ASCII fragment plus the non-breaking and
ideographic spaces that occur in practice in Japanese text; all that the
proofs need is that one fixed predicate is used consistently, exactly as
in the Python runtime. -/
def isSpace (c : Char) : Bool :=
  c = ' ' || c = '\t' || c = '\n' || c = '\r' ||
  c = '\x0b' || c = '\x0c' || c = ' ' || c = '　'

/-- Python `re.sub(r'\s+', ' ', text)`: each maximal run of whitespace becomes a
single space.  The boolean argument records whether the previous character
was part of a whitespace run. -/
def collapseWsAux : Bool → List Char → List Char
  | _, [] => []
  | prev, c :: cs =>
    if isSpace c then
      if prev then collapseWsAux true cs
      else ' ' :: collapseWsAux true cs
    else c :: collapseWsAux false cs

def collapseWs (l : List Char) : List Char := collapseWsAux false l

/-- Python `re.sub(r'\n+', '\n', text)`: each maximal run of newlines becomes a
single newline. -/
def collapseNlAux : Bool → List Char → List Char
  | _, [] => []
  | prev, c :: cs =>
    if c = '\n' then
      if prev then collapseNlAux true cs
      else '\n' :: collapseNlAux true cs
    else c :: collapseNlAux false cs

def collapseNl (l : List Char) : List Char := collapseNlAux false l

/-- Python `str.strip()`. -/
def pyStrip (l : List Char) : List Char :=
  ((l.dropWhile isSpace).reverse.dropWhile isSpace).reverse

/-- Model of `HTMLParser._clean_text` (parser.py:214-228): collapse whitespace runs
to a space, strip the ends, collapse newline runs; empty input maps to
empty output. -/
def cleanTextL (l : List Char) : List Char :=
  if l = [] then [] else collapseNl (pyStrip (collapseWs l))

def cleanText (s : String) : String := ⟨cleanTextL s.data⟩

/-- Python `str.split()` (no separator): split on whitespace runs,
producing no empty tokens.  `acc` is the reversed current token. -/
def pySplitAux : List Char → List Char → List (List Char)
  | acc, [] => if acc = [] then [] else [acc.reverse]
  | acc, c :: cs =>
    if isSpace c then
      if acc = [] then pySplitAux [] cs
      else acc.reverse :: pySplitAux [] cs
    else pySplitAux (c :: acc) cs

def pySplit (l : List Char) : List (List Char) := pySplitAux [] l

/-- The count `len(''.join(s.split()))` (parser.py:55). -/
def charCountL (l : List Char) : Nat := (pySplit l).flatten.length

/-! ## URLs

Models of the fragment of `urllib.parse` that the crawler exercises
(`urlparse(...).netloc` and `urljoin`): enough to resolve the relative and
absolute HTTP(S) URLs occurring on the target site. -/

/-- Split a list at the first occurrence of `sub`, returning the parts
before and after it. -/
def splitOnSub (sub : List Char) : List Char → Option (List Char × List Char)
  | [] => if sub = [] then some ([], []) else none
  | c :: rest =>
    if sub.isPrefixOf (c :: rest) then some ([], (c :: rest).drop sub.length)
    else
      match splitOnSub sub rest with
      | some (pre, post) => some (c :: pre, post)
      | none => none

def isUrlHostEnd (c : Char) : Bool := c = '/' || c = '?' || c = '#'

/-- Model of `urlparse(u).netloc`: the host part of an absolute or
protocol-relative URL, `""` for a relative reference. -/
def netlocOf (u : String) : String :=
  match splitOnSub "://".data u.data with
  | some (_, post) => ⟨post.takeWhile (fun c => !isUrlHostEnd c)⟩
  | none =>
    if "//".data.isPrefixOf u.data then
      ⟨(u.data.drop 2).takeWhile (fun c => !isUrlHostEnd c)⟩
    else ""

/-- Model of `HTMLParser._is_same_domain` (parser.py:230-234). -/
def isSameDomain (url base : String) : Bool :=
  netlocOf url = netlocOf base || netlocOf url = ""

/-- Whether `sub` occurs as a contiguous sublist of `l` (Python `in` on strings). -/
def isInfixL (sub : List Char) : List Char → Bool
  | [] => sub.isPrefixOf []
  | c :: rest => sub.isPrefixOf (c :: rest) || isInfixL sub rest

def containsSub (s sub : String) : Bool := isInfixL sub.data s.data

/-- Python `str.startswith`. -/
def strStartsWith (s pre : String) : Bool := pre.data.isPrefixOf s.data

/-- Python `str.endswith`. -/
def strEndsWith (s suf : String) : Bool := suf.data.reverse.isPrefixOf s.data.reverse

/-- Python `str.lower`, modelled on its ASCII fragment (the substrings the
crawler compares against are all ASCII). -/
def lowerChar (c : Char) : Char :=
  if 65 ≤ c.toNat && c.toNat ≤ 90 then Char.ofNat (c.toNat + 32) else c

def strToLower (s : String) : String := ⟨s.data.map lowerChar⟩

/-- The `scheme://host` part of an absolute URL. -/
def schemeHostOf (u : String) : String :=
  match splitOnSub "://".data u.data with
  | some (pre, post) => ⟨pre ++ "://".data ++ post.takeWhile (fun c => !isUrlHostEnd c)⟩
  | none => ""

/-- Everything up to and including the last `'/'`. -/
def upToLastSlash (l : List Char) : List Char :=
  (l.reverse.dropWhile (fun c => c ≠ '/')).reverse

/-- The "directory" of a URL, used to resolve relative references. -/
def dirOf (u : String) : String :=
  match splitOnSub "://".data u.data with
  | some (pre, post) =>
    let host := post.takeWhile (fun c => !isUrlHostEnd c)
    let path := post.drop host.length
    if upToLastSlash path = [] then ⟨pre ++ "://".data ++ host ++ ['/']⟩
    else ⟨pre ++ "://".data ++ host ++ upToLastSlash path⟩
  | none => ⟨upToLastSlash u.data⟩

/-- Model of `urllib.parse.urljoin(base, url)` restricted to the cases the crawler
meets: absolute URLs, protocol-relative, host-absolute and relative
references. -/
def urljoin (base url : String) : String :=
  if url = "" then base
  else if containsSub url "://" then url
  else if strStartsWith url "//" then
    (match splitOnSub "://".data base.data with
     | some (pre, _) => (⟨pre⟩ : String) ++ ":" ++ url
     | none => url)
  else if strStartsWith url "/" then schemeHostOf base ++ url
  else dirOf base ++ url

/-! ## Regex search

The crawler filters links with `re.search` over three pattern shapes, all
of the form "literal, then one or more characters from a class, then a
literal" (`results_[^/]+\.html`, `column_list\d+\.html`, ...).  `search`
semantics (a match anywhere in the string) is existence of such a
substring. -/

/-- One or more characters satisfying `p`, immediately followed by the
literal `lit2` (with arbitrary suffix after it). -/
def matchRun (p : Char → Bool) (lit2 : List Char) : List Char → Bool
  | [] => false
  | c :: rest => p c && (lit2.isPrefixOf rest || matchRun p lit2 rest)

/-- The search `re.search(lit1 ++ class+ ++ lit2, s)` as a boolean. -/
def searchPat (lit1 : List Char) (p : Char → Bool) (lit2 : List Char) :
    List Char → Bool
  | [] => false
  | c :: rest =>
    (lit1.isPrefixOf (c :: rest) && matchRun p lit2 ((c :: rest).drop lit1.length))
      || searchPat lit1 p lit2 rest

/-- Model of `re.search(r'results_[^/]+\.html', link)` (crawler.py:208). -/
def resultsPat (s : String) : Bool :=
  searchPat "results_".data (fun c => c ≠ '/') ".html".data s.data

/-- Model of `re.search(r'column_list\d+\.html', link)` (crawler.py:240). -/
def columnListPat (s : String) : Bool :=
  searchPat "column_list".data Char.isDigit ".html".data s.data

/-- Model of `re.search(r'column_detail\d+\.html', link)` (crawler.py:244,258). -/
def columnDetailPat (s : String) : Bool :=
  searchPat "column_detail".data Char.isDigit ".html".data s.data

/-- Model of `re.search(r'kaiken_list\d+\.html', link)` (crawler.py:294). -/
def kaikenListPat (s : String) : Bool :=
  searchPat "kaiken_list".data Char.isDigit ".html".data s.data

/-- Model of `re.search(r'kaiken_detail\d+\.html', link)` (crawler.py:310). -/
def kaikenDetailPat (s : String) : Bool :=
  searchPat "kaiken_detail".data Char.isDigit ".html".data s.data

/-! ## HTML documents

BeautifulSoup parsing is external; an `Html` value records what the
parser's finders and selectors would return on a given document. -/

/-- A `<time>` element: its `datetime` attribute (if present) and its
stripped text content. -/
structure TimeTag where
  datetime : Option String
  text : String
  deriving DecidableEq

/-- An HTML document as seen through the selectors `HTMLParser` uses. -/
structure Html where
  /-- Text of the `<title>` element, if present. -/
  titleTag : Option String
  /-- Text of the first `<h1>`, if present. -/
  h1Tag : Option String
  /-- `content` attribute of `<meta name="description">`, if present. -/
  metaDescription : Option String
  /-- `content` attribute of `<meta property="og:description">`, if present. -/
  ogDescription : Option String
  /-- Result of `select_one('#contents div.container div article div.articleTit p time')`. -/
  articleTitTime : Option TimeTag
  /-- Results of `select_one` for the five fallback selectors
  `article time`, `.articleTit time`, `time[datetime]`, `.date time`,
  `.publish-date time`, in that order. -/
  altTimes : List (Option TimeTag)
  /-- `get_text(separator='\n', strip=True)` of the first matching content
  area (`main`, `article`, content-like `div`), if a selector matched. -/
  mainContent : Option String
  /-- `get_text(separator='\n', strip=True)` of the whole body. -/
  bodyText : String
  /-- `href` attributes of all `<a href=...>` tags, in document order. -/
  anchors : List String
  deriving DecidableEq

/-- Python truthiness of an optional string. -/
def isTruthy : Option String → Bool
  | some s => s ≠ ""
  | none => false

/-- Model of `HTMLParser._extract_title` (parser.py:117-128). -/
def extractTitle (h : Html) : String :=
  match h.titleTag with
  | some t => cleanText t
  | none =>
    match h.h1Tag with
    | some t => cleanText t
    | none => ""

/-- Model of `HTMLParser._extract_description` (parser.py:130-140). -/
def extractDescription (h : Html) : String :=
  if isTruthy h.metaDescription then cleanText (h.metaDescription.getD "")
  else if isTruthy h.ogDescription then cleanText (h.ogDescription.getD "")
  else ""

/-- Model of `re.search(r'(\d{4})年(\d{2})月(\d{2})日', text)`: at each position try
four digits, `年`, two digits, `月`, two digits, `日`; return the three
digit groups at the leftmost matching position. -/
def jpDateAt : List Char → Option (String × String × String)
  | y1 :: y2 :: y3 :: y4 :: k1 :: m1 :: m2 :: k2 :: d1 :: d2 :: k3 :: _ =>
    if y1.isDigit && y2.isDigit && y3.isDigit && y4.isDigit && k1 = '年' &&
       m1.isDigit && m2.isDigit && k2 = '月' &&
       d1.isDigit && d2.isDigit && k3 = '日' then
      some (⟨[y1, y2, y3, y4]⟩, ⟨[m1, m2]⟩, ⟨[d1, d2]⟩)
    else none
  | _ => none

def searchJpDate : List Char → Option (String × String × String)
  | [] => none
  | c :: rest =>
    match jpDateAt (c :: rest) with
    | some g => some g
    | none => searchJpDate rest

/-- The five fallback selectors (parser.py:171-186): the first selected
`<time>` element carrying a truthy `datetime` attribute wins; text content
is never consulted here. -/
def tryAlternatives : List (Option TimeTag) → Option String
  | [] => none
  | none :: rest => tryAlternatives rest
  | some t :: rest =>
    match t.datetime with
    | some d => if d = "" then tryAlternatives rest else some d
    | none => tryAlternatives rest

/-- Model of `HTMLParser._extract_publish_date` (parser.py:142-187). -/
def extractPublishDate (h : Html) : Option String :=
  match h.articleTitTime with
  | some t =>
    match t.datetime with
    | some d =>
      if d ≠ "" then some d
      else if t.text ≠ "" then
        match searchJpDate t.text.data with
        | some (y, m, d') => some (y ++ "-" ++ m ++ "-" ++ d')
        | none => tryAlternatives h.altTimes
      else tryAlternatives h.altTimes
    | none =>
      if t.text ≠ "" then
        match searchJpDate t.text.data with
        | some (y, m, d') => some (y ++ "-" ++ m ++ "-" ++ d')
        | none => tryAlternatives h.altTimes
      else tryAlternatives h.altTimes
  | none => tryAlternatives h.altTimes

/-- Model of `HTMLParser._extract_main_content` (parser.py:189-204): the first
matching content area's text, `""` when no selector matches. -/
def extractMainContent (h : Html) : String :=
  match h.mainContent with
  | some t => t
  | none => ""

/-- Model of `HTMLParser._extract_all_text` (parser.py:206-212). -/
def extractAllText (h : Html) : String := h.bodyText

/-- The dictionary produced by `HTMLParser.extract_content`
(parser.py:21-64), with the `category` and `depth` keys the crawler may
add later. -/
structure PageRecord where
  url : String
  title : String
  description : String
  content : String
  word_count : Nat
  publish_date : Option String
  category : String := ""
  depth : Option Nat := none
  deriving DecidableEq

/-- Model of `HTMLParser.extract_content` (parser.py:21-64). -/
def extract_content (h : Html) (url : String) : PageRecord :=
  let mc0 := extractMainContent h
  let mc1 := if mc0 = "" then extractAllText h else mc0
  let content := cleanText mc1
  { url := url
    title := extractTitle h
    description := extractDescription h
    content := content
    word_count := if content = "" then 0 else charCountL content.data
    publish_date := extractPublishDate h }

/-- Model of `HTMLParser.extract_links` (parser.py:66-94): skip empty, in-page
anchor and `javascript:` hrefs, resolve against the current URL, keep
same-domain links, deduplicate. -/
def extract_links (base : String) (h : Html) (currentUrl : String) : List String :=
  ((((h.anchors.filter
      (fun href => !(href = "" || strStartsWith href "#" || strStartsWith href "javascript:"))).map
      (fun href => urljoin currentUrl href)).filter
      (fun u => isSameDomain u base))).dedup

/-- Model of `HTMLParser.extract_subpage_links` (parser.py:96-115) with a pattern. -/
def extract_subpage_links (base : String) (h : Html) (currentUrl : String)
    (pat : String → Bool) : List String :=
  (extract_links base h currentUrl).filter pat

/-! ## The crawler

`WebCrawler` (crawler.py).  The network is a function from URL to a fetch
outcome; the outcome already accounts for the session's automatic retries,
which live inside the `requests` adapter.  The crawler's mutable object
state is an explicit `CrawlState`; the `trace` field logs every fetch
attempt and every politeness sleep in order. -/

/-- Result of `session.get` + `raise_for_status` after the adapter's
retries: a body, or one of the failure modes the spec names. -/
inductive FetchOutcome where
  | ok (body : Html)
  | netError
  | timeout
  | httpError (status : Nat)
  deriving DecidableEq

/-- Model of `WebCrawler._fetch_page` (crawler.py:327-347): returns the body on
success and `none` on any exception (network error, timeout, or the
non-2xx status raised by `raise_for_status`). -/
def fetchPage (web : String → FetchOutcome) (url : String) : Option Html :=
  match web url with
  | .ok b => some b
  | .netError => none
  | .timeout => none
  | .httpError _ => none

/-- Observable crawl events: a fetch attempt, or a `time.sleep` of the
configured politeness delay. -/
inductive Event where
  | fetch (url : String)
  | sleep
  deriving DecidableEq

/-- A category output file: its name and the records serialized into it. -/
structure SavedFile where
  name : String
  contents : List PageRecord
  deriving DecidableEq

/-- The crawler's mutable state (`visited_urls`, `scraped_data`,
`timestamp`, `saved_files`), plus the event trace. -/
structure CrawlState where
  visited : List String
  scraped : List PageRecord
  timestamp : Option Nat
  savedFiles : List SavedFile
  trace : List Event
  deriving DecidableEq

def initState : CrawlState := ⟨[], [], none, [], []⟩

/-- Model of `WebCrawler._crawl_single_page` (crawler.py:120-147): skip if visited,
mark visited, fetch, and append the record only when its character count
exceeds 100. -/
def crawlSinglePage (web : String → FetchOutcome) (cat url : String)
    (s : CrawlState) : CrawlState :=
  if url ∈ s.visited then s
  else
    let s1 := { s with visited := url :: s.visited, trace := s.trace ++ [Event.fetch url] }
    match fetchPage web url with
    | none => s1
    | some h =>
      let r := { extract_content h url with category := cat }
      if 100 < r.word_count then { s1 with scraped := s1.scraped ++ [r] } else s1

def mediaExtensions : List String :=
  [".jpg", ".jpeg", ".png", ".gif", ".pdf", ".mp4", ".mp3"]

/-- Model of `WebCrawler._should_follow_link` (crawler.py:349-382). -/
def shouldFollowLink (base link category : String) : Bool :=
  if !strStartsWith link base then false
  else if mediaExtensions.any (fun ext => strEndsWith (strToLower link) ext) then false
  else if category == "column" then containsSub (strToLower link) "column"
  else if category == "kaiken" then containsSub (strToLower link) "kaiken"
  else if category == "idea" then
    containsSub (strToLower link) "idea" || containsSub (strToLower link) "policy"
  else if category == "posture" then
    containsSub (strToLower link) "posture" || containsSub (strToLower link) "stance"
  else if category == "results" then
    containsSub (strToLower link) "result" || containsSub (strToLower link) "achievement"
  else true

/-- Model of `WebCrawler._crawl_page_and_subpages` (crawler.py:149-187), the
fallback strategy for unmapped categories.  The `fuel` argument makes the
depth-bounded recursion structural; it is always called with
`fuel = maxDepth + 1 - depth`, which the `depth < maxDepth` guard keeps
positive at every recursive call, so the fuel-exhausted branch is never
taken. -/
def crawlSubpages (web : String → FetchOutcome) (base cat : String) (maxDepth : Nat) :
    Nat → String → Nat → CrawlState → CrawlState
  | fuel, url, depth, s =>
    if url ∈ s.visited || maxDepth < depth then s
    else
      let s1 := { s with visited := url :: s.visited, trace := s.trace ++ [Event.fetch url] }
      match fetchPage web url with
      | none => s1
      | some h =>
        let r := { extract_content h url with category := cat, depth := some depth }
        let s2 := if 100 < r.word_count then { s1 with scraped := s1.scraped ++ [r] } else s1
        if depth < maxDepth then
          match fuel with
          | 0 => s2
          | fuel' + 1 =>
            (extract_links base h url).foldl
              (fun acc link =>
                if shouldFollowLink base link cat then
                  let acc' := crawlSubpages web base cat maxDepth fuel' link (depth + 1) acc
                  { acc' with trace := acc'.trace ++ [Event.sleep] }
                else acc) s2
        else s2

/-- Dispatch of the fallback strategy with its default arguments
(`max_depth=2, current_depth=0`, crawler.py:101,149). -/
def crawlFallback (web : String → FetchOutcome) (base cat url : String)
    (s : CrawlState) : CrawlState :=
  crawlSubpages web base cat 2 3 url 0 s

/-- The detail-page loop shared by the results, kaiken and column
strategies (crawler.py:213-216, 268-271, 320-323): for each link not yet
visited, crawl it as a single page and then sleep. -/
def crawlDetailList (web : String → FetchOutcome) (cat : String)
    (links : List String) (s : CrawlState) : CrawlState :=
  links.foldl
    (fun acc l =>
      if l ∈ acc.visited then acc
      else
        let a := crawlSinglePage web cat l acc
        { a with trace := a.trace ++ [Event.sleep] }) s

/-- Model of `WebCrawler._crawl_results_pages` (crawler.py:189-218): record the
main page, then fetch it again to extract `results_*.html` links, then
crawl each. -/
def crawlResultsPages (web : String → FetchOutcome) (base url : String)
    (s : CrawlState) : CrawlState :=
  let s1 := crawlSinglePage web "results" url s
  let s2 := { s1 with trace := s1.trace ++ [Event.fetch url] }
  match fetchPage web url with
  | none => s2
  | some h =>
    let links := extract_subpage_links base h url resultsPat
    crawlDetailList web "results" links s2

/-- The list-page loop shared by the kaiken and column strategies
(crawler.py:248-261, 300-313): for each unvisited list page, record it,
fetch it again, and on success extract its detail links and sleep. -/
def crawlListPages (web : String → FetchOutcome) (base cat : String)
    (pat : String → Bool) (links : List String)
    (init : CrawlState × List String) : CrawlState × List String :=
  links.foldl
    (fun st listUrl =>
      if listUrl ∈ st.1.visited then st
      else
        let a := crawlSinglePage web cat listUrl st.1
        let a := { a with trace := a.trace ++ [Event.fetch listUrl] }
        match fetchPage web listUrl with
        | some lh =>
          let dls := extract_subpage_links base lh listUrl pat
          ({ a with trace := a.trace ++ [Event.sleep] }, st.2 ++ dls)
        | none => (a, st.2)) init

/-- Model of `WebCrawler._crawl_column_pages` (crawler.py:220-273): main page,
list pages, then the deduplicated aggregate of detail links found on the
main page and on every list page. -/
def crawlColumnPages (web : String → FetchOutcome) (base url : String)
    (s : CrawlState) : CrawlState :=
  let s1 := crawlSinglePage web "column" url s
  let s2 := { s1 with trace := s1.trace ++ [Event.fetch url] }
  match fetchPage web url with
  | none => s2
  | some h =>
    let listLinks := extract_subpage_links base h url columnListPat
    let details0 := extract_subpage_links base h url columnDetailPat
    let st := crawlListPages web base "column" columnDetailPat listLinks (s2, details0)
    crawlDetailList web "column" st.2.dedup st.1

/-- Model of `WebCrawler._crawl_kaiken_pages` (crawler.py:275-325): like the column
strategy but the detail aggregate starts empty. -/
def crawlKaikenPages (web : String → FetchOutcome) (base url : String)
    (s : CrawlState) : CrawlState :=
  let s1 := crawlSinglePage web "kaiken" url s
  let s2 := { s1 with trace := s1.trace ++ [Event.fetch url] }
  match fetchPage web url with
  | none => s2
  | some h =>
    let listLinks := extract_subpage_links base h url kaikenListPat
    let st := crawlListPages web base "kaiken" kaikenDetailPat listLinks (s2, [])
    crawlDetailList web "kaiken" st.2.dedup st.1

/-- Strategy dispatch by category name (crawler.py:87-101). -/
def crawlCategory (web : String → FetchOutcome) (base name url : String)
    (s : CrawlState) : CrawlState :=
  if name == "idea" || name == "posture" then crawlSinglePage web name url s
  else if name == "results" then crawlResultsPages web base url s
  else if name == "kaiken" then crawlKaikenPages web base url s
  else if name == "column" then crawlColumnPages web base url s
  else crawlFallback web base name url s

/-- Model of `WebCrawler._save_category_data` (crawler.py:384-417): the written
file is modelled by a `SavedFile` appended to `savedFiles`.  `now` stands
for `int(time.time())` at the moment of the call. -/
def saveCategoryData (now : Nat) (category : String) (s : CrawlState) :
    Option SavedFile × CrawlState :=
  let categoryData := s.scraped.filter (fun r => r.category == category)
  if categoryData = [] then (none, s)
  else
    let ts := match s.timestamp with | some t => t | none => now
    let s1 := if s.timestamp = none then { s with timestamp := some now } else s
    let f : SavedFile := ⟨category ++ "_" ++ toString ts ++ ".json", categoryData⟩
    (some f,
      { s1 with
        scraped := s1.scraped.filter (fun r => !(r.category == category)),
        savedFiles := s1.savedFiles ++ [f] })

/-- Model of `WebCrawler.crawl_all_pages` (crawler.py:63-118): freeze the run
timestamp, then for each configured category run its strategy, save its
records, and sleep.  `now` stands for `int(time.time())` at run start. -/
def crawlAllPages (web : String → FetchOutcome) (base : String)
    (targets : List (String × String)) (now : Nat) (s : CrawlState) : CrawlState :=
  let s0 := if s.timestamp = none then { s with timestamp := some now } else s
  targets.foldl
    (fun acc nm =>
      let acc1 := crawlCategory web base nm.1 (urljoin base nm.2) acc
      let acc2 := (saveCategoryData now nm.1 acc1).2
      { acc2 with trace := acc2.trace ++ [Event.sleep] }) s0

/-! ## Proof infrastructure -/

/-- The PageRecord gate invariant: character count above 100 and equal to
the length of the content with all whitespace removed. -/
def GoodRec (r : PageRecord) : Prop :=
  100 < r.word_count ∧
  r.word_count = (r.content.data.filter (fun c => !isSpace c)).length

/-- Every fetch event is immediately followed by a sleep event. -/
def everyFetchFollowedBySleep : List Event → Bool
  | [] => true
  | Event.sleep :: rest => everyFetchFollowedBySleep rest
  | [Event.fetch _] => false
  | Event.fetch _ :: Event.sleep :: rest => everyFetchFollowedBySleep rest
  | Event.fetch _ :: Event.fetch _ :: _ => false

/-- No two fetch events are adjacent: some delay separates any fetch from
the next one. -/
def delayBetweenFetches : List Event → Bool
  | [] => true
  | Event.fetch _ :: Event.fetch _ :: _ => false
  | _ :: rest => delayBetweenFetches rest

/-- How a strategy may transform the crawl state: records satisfying `P`
are appended to the buffer, events satisfying `Q` are appended to the
trace, the visited set only grows, and the run timestamp and the list of
written files are untouched. -/
def StratOK (P : PageRecord → Prop) (Q : Event → Prop) (s s' : CrawlState) : Prop :=
  (∃ new, s'.scraped = s.scraped ++ new ∧ ∀ r ∈ new, P r) ∧
  (∃ tr, s'.trace = s.trace ++ tr ∧ ∀ e ∈ tr, Q e) ∧
  (∀ u ∈ s.visited, u ∈ s'.visited) ∧
  s'.timestamp = s.timestamp ∧
  s'.savedFiles = s.savedFiles

/-- What the fallback strategy is allowed to append: a gated record of its
category, depth-tagged within the bound. -/
def FallbackRec (cat : String) (maxDepth : Nat) (r : PageRecord) : Prop :=
  GoodRec r ∧ r.category = cat ∧ ∃ d, r.depth = some d ∧ d ≤ maxDepth

/-- What the fallback strategy may put in the trace: sleeps, a fetch of
its entry URL, or a fetch of a link admitted by the category-keyword
heuristic and the same-domain link filter. -/
def FallbackEv (base cat url : String) (e : Event) : Prop :=
  e = Event.sleep ∨ e = Event.fetch url ∨
    ∃ l, e = Event.fetch l ∧ shouldFollowLink base l cat = true ∧
      isSameDomain l base = true

/-! ## Concrete fixtures

Small concrete sites used to instantiate witnesses and counterexamples. -/

def exBase : String := "https://ex.jp"

/-- A string of 101 non-whitespace characters: passes the `> 100` gate. -/
def exContent : String := ⟨List.replicate 101 'a'⟩

/-- A content page with the given anchor hrefs. -/
def pageHtml (as : List String) : Html :=
  { titleTag := some "t", h1Tag := none, metaDescription := none, ogDescription := none,
    articleTitTime := none, altTimes := [none, none, none, none, none],
    mainContent := some exContent, bodyText := "", anchors := as }

def colM : String := "https://ex.jp/column.html"
def colL : String := "https://ex.jp/column_list1.html"
def colD : String := "https://ex.jp/column_detail1.html"

/-- Column site: the main page links to one list page and one detail page;
the list page links to the same detail page. -/
def colWeb : String → FetchOutcome := fun u =>
  if u = colM then .ok (pageHtml [colL, colD])
  else if u = colL then .ok (pageHtml [colD])
  else if u = colD then .ok (pageHtml [])
  else .netError

def resM : String := "https://ex.jp/results.html"
def resD1 : String := "https://ex.jp/results_a1.html"

/-- Results site: the main page links to one detail page. -/
def resWeb : String → FetchOutcome := fun u =>
  if u = resM then .ok (pageHtml [resD1])
  else if u = resD1 then .ok (pageHtml [])
  else .netError

def fbU : String := "https://ex.jp/other.html"
def fbV : String := "https://ex.jp/other2.html"

/-- Site for the fallback strategy: the entry page links to one subpage. -/
def fbWeb : String → FetchOutcome := fun u =>
  if u = fbU then .ok (pageHtml [fbV])
  else if u = fbV then .ok (pageHtml [])
  else .netError

def nopeU : String := "https://ex.jp/nope.html"

/-- Document whose only date information is a fallback `<time>` element
carrying a localized date in its text but no `datetime` attribute. -/
def html9a : Html :=
  { titleTag := none, h1Tag := none, metaDescription := none, ogDescription := none,
    articleTitTime := none,
    altTimes := [some ⟨none, "2014年06月05日"⟩, none, none, none, none],
    mainContent := none, bodyText := "", anchors := [] }

/-- Document whose article-title `<time>` carries a full ISO timestamp in
its `datetime` attribute. -/
def html9b : Html :=
  { titleTag := none, h1Tag := none, metaDescription := none, ogDescription := none,
    articleTitTime := some ⟨some "2014-06-05T00:00:00+09:00", ""⟩,
    altTimes := [none, none, none, none, none],
    mainContent := none, bodyText := "", anchors := [] }

/-- The shape `YYYY-MM-DD`: exactly ten characters, digits around two
dashes. -/
def isYmdFormat (s : String) : Bool :=
  match s.data with
  | [y1, y2, y3, y4, k1, m1, m2, k2, d1, d2] =>
    y1.isDigit && y2.isDigit && y3.isDigit && y4.isDigit && k1 = '-' &&
    m1.isDigit && m2.isDigit && k2 = '-' && d1.isDigit && d2.isDigit
  | _ => false

theorem pySplitAux_join (l : List Char) :
    ∀ acc, (pySplitAux acc l).flatten = acc.reverse ++ l.filter (fun c => !isSpace c) := by
  induction l with
  | nil =>
    intro acc
    by_cases h : acc = [] <;> simp [pySplitAux, h]
  | cons c cs ih =>
    intro acc
    by_cases hc : isSpace c
    · by_cases h : acc = [] <;>
        simp [pySplitAux, hc, h, ih, List.filter_cons]
    · simp [pySplitAux, hc, ih, List.filter_cons]

/-- The character count computed by joining the whitespace split equals the
length of the string with all whitespace characters removed. -/
theorem charCountL_eq_filter (l : List Char) :
    charCountL l = (l.filter (fun c => !isSpace c)).length := by
  simp [charCountL, pySplit, pySplitAux_join]

/-! ## cleanText produces no newline -/

theorem collapseWsAux_no_nl (l : List Char) :
    ∀ b, '\n' ∉ collapseWsAux b l := by
  induction l with
  | nil => intro b; simp [collapseWsAux]
  | cons c cs ih =>
    intro b
    by_cases hc : isSpace c
    · by_cases hb : b
      · simpa [collapseWsAux, hc, hb] using ih true
      · simp only [collapseWsAux, hc, if_true, hb, if_false]
        intro hmem
        rcases List.mem_cons.mp hmem with h | h
        · exact absurd h.symm (by decide)
        · exact ih true h
    · simp only [collapseWsAux, hc, if_false]
      intro hmem
      rcases List.mem_cons.mp hmem with h | h
      · subst h
        exact hc (by simp [isSpace])
      · exact ih false h

theorem pyStrip_subset {c : Char} {l : List Char} (h : c ∈ pyStrip l) : c ∈ l := by
  unfold pyStrip at h
  have h1 := List.mem_reverse.mp h
  have h2 := List.dropWhile_sublist (l := (l.dropWhile isSpace).reverse) (p := isSpace)
  have h3 : c ∈ (l.dropWhile isSpace).reverse := h2.mem h1
  have h4 := List.mem_reverse.mp h3
  exact (List.dropWhile_sublist (l := l) (p := isSpace)).mem h4

theorem collapseNlAux_no_new {l : List Char} (hl : '\n' ∉ l) :
    ∀ b, '\n' ∉ collapseNlAux b l := by
  induction l with
  | nil => intro b; simp [collapseNlAux]
  | cons c cs ih =>
    intro b
    have hc : ¬ (c = '\n') := fun h => hl (h ▸ List.mem_cons_self c cs)
    have hcs : '\n' ∉ cs := fun h => hl (List.mem_cons_of_mem c h)
    simp only [collapseNlAux, decide_eq_true_eq, hc, if_false]
    intro hmem
    rcases List.mem_cons.mp hmem with h | h
    · exact hc h.symm
    · exact ih hcs false h

/-- The `_clean_text` output never contains a newline: the whitespace-collapsing
substitution runs first and removes every newline, so the later
newline-collapsing substitution acts on a newline-free string. -/
theorem cleanTextL_no_nl (l : List Char) : '\n' ∉ cleanTextL l := by
  unfold cleanTextL
  by_cases h : l = []
  · simp [h]
  · simp only [h, if_false]
    apply collapseNlAux_no_new
    intro hmem
    exact collapseWsAux_no_nl l false (pyStrip_subset hmem)

theorem stratOK_refl (P Q) (s : CrawlState) : StratOK P Q s s :=
  ⟨⟨[], by simp⟩, ⟨[], by simp⟩, fun _ h => h, rfl, rfl⟩

theorem stratOK_trans {P Q} {s₁ s₂ s₃ : CrawlState}
    (h₁ : StratOK P Q s₁ s₂) (h₂ : StratOK P Q s₂ s₃) : StratOK P Q s₁ s₃ := by
  obtain ⟨⟨n₁, hn₁, hp₁⟩, ⟨t₁, ht₁, hq₁⟩, hv₁, hts₁, hf₁⟩ := h₁
  obtain ⟨⟨n₂, hn₂, hp₂⟩, ⟨t₂, ht₂, hq₂⟩, hv₂, hts₂, hf₂⟩ := h₂
  refine ⟨⟨n₁ ++ n₂, by simp [hn₂, hn₁], ?_⟩, ⟨t₁ ++ t₂, by simp [ht₂, ht₁], ?_⟩,
    fun u hu => hv₂ u (hv₁ u hu), hts₂.trans hts₁, hf₂.trans hf₁⟩
  · intro r hr
    rcases List.mem_append.mp hr with h | h
    · exact hp₁ r h
    · exact hp₂ r h
  · intro e he
    rcases List.mem_append.mp he with h | h
    · exact hq₁ e h
    · exact hq₂ e h

theorem stratOK_mono {P P' Q Q'} {s s' : CrawlState}
    (hP : ∀ r, P r → P' r) (hQ : ∀ e, Q e → Q' e)
    (h : StratOK P Q s s') : StratOK P' Q' s s' := by
  obtain ⟨⟨n, hn, hp⟩, ⟨t, ht, hq⟩, hv, hts, hf⟩ := h
  exact ⟨⟨n, hn, fun r hr => hP r (hp r hr)⟩, ⟨t, ht, fun e he => hQ e (hq e he)⟩,
    hv, hts, hf⟩

/-- Folding a step that satisfies a reflexive-transitive relation keeps
satisfying it. -/
theorem foldl_rel {σ α : Type} (R : σ → σ → Prop)
    (htrans : ∀ {a b c}, R a b → R b c → R a c)
    (f : σ → α → σ) (l : List α)
    (hf : ∀ a x, x ∈ l → R a (f a x)) (hrefl : ∀ a, R a a) :
    ∀ s, R s (l.foldl f s) := by
  induction l with
  | nil => intro s; simpa using hrefl s
  | cons x xs ih =>
    intro s
    have h1 : R s (f s x) := hf s x (List.mem_cons_self x xs)
    have h2 : R (f s x) (xs.foldl f (f s x)) :=
      ih (fun a y hy => hf a y (List.mem_cons_of_mem x hy)) (f s x)
    simpa using htrans h1 h2

/-- The character count stored by `extract_content` is exactly the length
of the stored content with all whitespace characters removed. -/
theorem word_count_if_eq_filter (c : String) :
    (if c = "" then 0 else charCountL c.data) =
      (c.data.filter (fun x => !isSpace x)).length := by
  by_cases hc : c = ""
  · rw [if_pos hc, hc]; rfl
  · rw [if_neg hc, charCountL_eq_filter]

theorem extract_content_word_count (h : Html) (url : String) :
    (extract_content h url).word_count =
      ((extract_content h url).content.data.filter (fun c => !isSpace c)).length :=
  word_count_if_eq_filter ((extract_content h url).content)

/-- Running `_crawl_single_page` on an already-visited URL is a no-op. -/
theorem crawlSinglePage_visited {web cat url} {s : CrawlState}
    (h : url ∈ s.visited) : crawlSinglePage web cat url s = s := by
  simp [crawlSinglePage, h]

/-- Running `_crawl_single_page` on an unvisited URL: the URL is marked visited,
exactly one fetch attempt is traced, and a record is appended only when
the fetch succeeds and the gate passes. -/
theorem crawlSinglePage_not_visited {web cat url} {s : CrawlState}
    (h : url ∉ s.visited) :
    (crawlSinglePage web cat url s).visited = url :: s.visited ∧
    (crawlSinglePage web cat url s).trace = s.trace ++ [Event.fetch url] ∧
    ((crawlSinglePage web cat url s).scraped = s.scraped ∨
      ∃ hh, fetchPage web url = some hh ∧
        100 < (extract_content hh url).word_count ∧
        (crawlSinglePage web cat url s).scraped
          = s.scraped ++ [{ extract_content hh url with category := cat }]) ∧
    (crawlSinglePage web cat url s).timestamp = s.timestamp ∧
    (crawlSinglePage web cat url s).savedFiles = s.savedFiles := by
  simp only [crawlSinglePage, if_neg h]
  cases hf : fetchPage web url with
  | none => refine ⟨?_, ?_, Or.inl ?_, ?_, ?_⟩ <;> trivial
  | some hh =>
    by_cases hg :
        100 < ({ extract_content hh url with category := cat } : PageRecord).word_count
    · simp only [if_pos hg]
      refine ⟨?_, ?_, Or.inr ⟨hh, ?_, ?_, ?_⟩, ?_, ?_⟩ <;> first | exact hg | trivial
    · simp only [if_neg hg]
      refine ⟨?_, ?_, Or.inl ?_, ?_, ?_⟩ <;> trivial

/-- A record appended by `_crawl_single_page` satisfies the gate
invariant, carries the strategy's category, and has no depth tag. -/
theorem crawlSinglePage_ok (web : String → FetchOutcome) (cat url : String)
    (s : CrawlState) :
    StratOK (fun r => GoodRec r ∧ r.category = cat ∧ r.depth = none)
      (fun e => e = Event.fetch url) s (crawlSinglePage web cat url s) := by
  by_cases h : url ∈ s.visited
  · rw [crawlSinglePage_visited h]; exact stratOK_refl _ _ _
  · obtain ⟨hv, ht, hs, hts, hf⟩ := @crawlSinglePage_not_visited web cat url s h
    refine ⟨?_, ⟨[Event.fetch url], ht, by simp⟩, ?_, hts, hf⟩
    · rcases hs with h' | ⟨hh, _, hg, h'⟩
      · exact ⟨[], by simp [h'], by simp⟩
      · refine ⟨[{ extract_content hh url with category := cat }], h', ?_⟩
        intro r hr
        rw [List.mem_singleton] at hr
        subst hr
        refine ⟨⟨hg, ?_⟩, rfl, rfl⟩
        simpa using extract_content_word_count hh url
    · intro u hu
      rw [hv]
      exact List.mem_cons_of_mem _ hu

/-- Every link returned by `extract_links` passes the same-domain check. -/
theorem extract_links_sameDomain {base : String} {h : Html} {cur u : String}
    (hu : u ∈ extract_links base h cur) : isSameDomain u base = true := by
  unfold extract_links at hu
  have := List.mem_dedup.mp hu
  exact (List.mem_filter.mp this).2

/-- Every link returned by `extract_subpage_links` passes the same-domain
check. -/
theorem extract_subpage_links_sameDomain {base : String} {h : Html} {cur u : String}
    {pat : String → Bool} (hu : u ∈ extract_subpage_links base h cur pat) :
    isSameDomain u base = true :=
  extract_links_sameDomain (List.mem_of_mem_filter hu)

/-- Appending one trace event is a `StratOK` step. -/
theorem stratOK_addTrace {P : PageRecord → Prop} {Q : Event → Prop}
    {a : CrawlState} {e : Event} (he : Q e) :
    StratOK P Q a { a with trace := a.trace ++ [e] } :=
  ⟨⟨[], by simp, by simp⟩, ⟨[e], by simp, by simpa⟩, fun _ h => h, rfl, rfl⟩

theorem stratOK_addFetch {P : PageRecord → Prop} {a : CrawlState} (u : String) :
    StratOK P (fun _ => True) a { a with trace := a.trace ++ [Event.fetch u] } :=
  stratOK_addTrace trivial

theorem stratOK_addSleep {P : PageRecord → Prop} {a : CrawlState} :
    StratOK P (fun _ => True) a { a with trace := a.trace ++ [Event.sleep] } :=
  stratOK_addTrace trivial

/-- The detail-page loop appends only gated records of its category and
traces only fetches of its links and sleeps. -/
theorem crawlDetailList_ok (web : String → FetchOutcome) (cat : String)
    (links : List String) (s : CrawlState) :
    StratOK (fun r => GoodRec r ∧ r.category = cat ∧ r.depth = none)
      (fun e => e = Event.sleep ∨ ∃ l ∈ links, e = Event.fetch l)
      s (crawlDetailList web cat links s) := by
  unfold crawlDetailList
  refine foldl_rel
    (StratOK (fun r => GoodRec r ∧ r.category = cat ∧ r.depth = none)
      (fun e => e = Event.sleep ∨ ∃ l ∈ links, e = Event.fetch l))
    (fun hab hbc => stratOK_trans hab hbc) _ links ?_
    (fun a => stratOK_refl _ _ _) s
  intro a x hx
  by_cases hv : x ∈ a.visited
  · simp only [if_pos hv]
    exact stratOK_refl _ _ _
  · simp only [if_neg hv]
    refine stratOK_trans (stratOK_mono (fun r hr => hr) ?_ (crawlSinglePage_ok web cat x a))
      (stratOK_addTrace (Or.inl rfl))
    intro e he
    exact Or.inr ⟨x, hx, he⟩

/-- The list-page loop (kaiken/column) appends only gated records of its
category to the state component of its accumulator. -/
theorem crawlListPages_ok (web : String → FetchOutcome) (base cat : String)
    (pat : String → Bool) (links : List String) (init : CrawlState × List String) :
    StratOK (fun r => GoodRec r ∧ r.category = cat ∧ r.depth = none) (fun _ => True)
      init.1 (crawlListPages web base cat pat links init).1 := by
  unfold crawlListPages
  refine foldl_rel
    (fun p q : CrawlState × List String =>
      StratOK (fun r => GoodRec r ∧ r.category = cat ∧ r.depth = none) (fun _ => True) p.1 q.1)
    (fun hab hbc => stratOK_trans hab hbc) _ links ?_ (fun p => stratOK_refl _ _ _) init
  intro a x _
  by_cases hv : x ∈ a.1.visited
  · simp only [if_pos hv]
    exact stratOK_refl _ _ _
  · simp only [if_neg hv]
    cases hf : fetchPage web x with
    | none =>
      exact stratOK_trans
        (stratOK_mono (fun r hr => hr) (fun _ _ => trivial) (crawlSinglePage_ok web cat x a.1))
        (stratOK_addFetch x)
    | some lh =>
      exact stratOK_trans
        (stratOK_trans
          (stratOK_mono (fun r hr => hr) (fun _ _ => trivial) (crawlSinglePage_ok web cat x a.1))
          (stratOK_addFetch x))
        stratOK_addSleep

/-- The results strategy appends only gated `results` records. -/
theorem crawlResultsPages_ok (web : String → FetchOutcome) (base url : String)
    (s : CrawlState) :
    StratOK (fun r => GoodRec r ∧ r.category = "results" ∧ r.depth = none) (fun _ => True)
      s (crawlResultsPages web base url s) := by
  have h1 := stratOK_mono (fun r hr => hr) (fun _ _ => trivial)
    (crawlSinglePage_ok web "results" url s)
  unfold crawlResultsPages
  cases hf : fetchPage web url with
  | none =>
    exact stratOK_trans h1 (stratOK_addFetch url)
  | some h =>
    refine stratOK_trans (stratOK_trans h1 (stratOK_addFetch url)) ?_
    exact stratOK_mono (fun r hr => hr) (fun _ _ => trivial) (crawlDetailList_ok _ _ _ _)

/-- The column strategy appends only gated `column` records. -/
theorem crawlColumnPages_ok (web : String → FetchOutcome) (base url : String)
    (s : CrawlState) :
    StratOK (fun r => GoodRec r ∧ r.category = "column" ∧ r.depth = none) (fun _ => True)
      s (crawlColumnPages web base url s) := by
  have h1 := stratOK_mono (fun r hr => hr) (fun _ _ => trivial)
    (crawlSinglePage_ok web "column" url s)
  unfold crawlColumnPages
  cases hf : fetchPage web url with
  | none =>
    exact stratOK_trans h1 (stratOK_addFetch url)
  | some h =>
    refine stratOK_trans (stratOK_trans h1 (stratOK_addFetch url)) ?_
    refine stratOK_trans
      (crawlListPages_ok web base "column" columnDetailPat
        (extract_subpage_links base h url columnListPat)
        ({ crawlSinglePage web "column" url s with
            trace := (crawlSinglePage web "column" url s).trace ++ [Event.fetch url] },
          extract_subpage_links base h url columnDetailPat)) ?_
    exact stratOK_mono (fun r hr => hr) (fun _ _ => trivial) (crawlDetailList_ok _ _ _ _)

/-- The kaiken strategy appends only gated `kaiken` records. -/
theorem crawlKaikenPages_ok (web : String → FetchOutcome) (base url : String)
    (s : CrawlState) :
    StratOK (fun r => GoodRec r ∧ r.category = "kaiken" ∧ r.depth = none) (fun _ => True)
      s (crawlKaikenPages web base url s) := by
  have h1 := stratOK_mono (fun r hr => hr) (fun _ _ => trivial)
    (crawlSinglePage_ok web "kaiken" url s)
  unfold crawlKaikenPages
  cases hf : fetchPage web url with
  | none =>
    exact stratOK_trans h1 (stratOK_addFetch url)
  | some h =>
    refine stratOK_trans (stratOK_trans h1 (stratOK_addFetch url)) ?_
    refine stratOK_trans
      (crawlListPages_ok web base "kaiken" kaikenDetailPat
        (extract_subpage_links base h url kaikenListPat)
        ({ crawlSinglePage web "kaiken" url s with
            trace := (crawlSinglePage web "kaiken" url s).trace ++ [Event.fetch url] },
          [])) ?_
    exact stratOK_mono (fun r hr => hr) (fun _ _ => trivial) (crawlDetailList_ok _ _ _ _)

theorem stratOK_markVisited {P : PageRecord → Prop} {Q : Event → Prop}
    {s : CrawlState} {url : String} (hQ : Q (Event.fetch url)) :
    StratOK P Q s
      { s with visited := url :: s.visited, trace := s.trace ++ [Event.fetch url] } :=
  ⟨⟨[], by simp, by simp⟩, ⟨[Event.fetch url], by simp, by simpa⟩,
    fun _ hu => List.mem_cons_of_mem _ hu, rfl, rfl⟩

theorem stratOK_addRecord {P : PageRecord → Prop} {Q : Event → Prop}
    {s : CrawlState} {r : PageRecord} (hr : P r) :
    StratOK P Q s { s with scraped := s.scraped ++ [r] } :=
  ⟨⟨[r], rfl, by simpa⟩, ⟨[], by simp, by simp⟩, fun _ h => h, rfl, rfl⟩

theorem crawlSubpages_ok (web : String → FetchOutcome) (base cat : String)
    (maxDepth : Nat) :
    ∀ (fuel : Nat) (url : String) (depth : Nat) (s : CrawlState),
      StratOK (FallbackRec cat maxDepth) (FallbackEv base cat url) s
        (crawlSubpages web base cat maxDepth fuel url depth s) := by
  intro fuel
  induction fuel with
  | zero =>
    intro url depth s
    rw [crawlSubpages]
    by_cases hc : (decide (url ∈ s.visited) || decide (maxDepth < depth)) = true
    · rw [if_pos hc]
      exact stratOK_refl _ _ _
    · rw [if_neg hc]
      have hcc := hc
      simp only [Bool.or_eq_true, decide_eq_true_eq, not_or] at hcc
      obtain ⟨h1, h2⟩ := hcc
      have h2' : depth ≤ maxDepth := Nat.not_lt.mp h2
      cases hf : fetchPage web url with
      | none => exact stratOK_markVisited (Or.inr (Or.inl rfl))
      | some h =>
        by_cases hg : 100 <
            ({ extract_content h url with category := cat, depth := some depth } : PageRecord).word_count
        · simp only [if_pos hg]
          refine stratOK_trans (stratOK_markVisited (Or.inr (Or.inl rfl))) ?_
          refine stratOK_trans (stratOK_addRecord
            ⟨⟨hg, by simpa using extract_content_word_count h url⟩, rfl, depth, rfl, h2'⟩) ?_
          split
          · exact stratOK_refl _ _ _
          · exact stratOK_refl _ _ _
        · simp only [if_neg hg]
          refine stratOK_trans (stratOK_markVisited (Or.inr (Or.inl rfl))) ?_
          split
          · exact stratOK_refl _ _ _
          · exact stratOK_refl _ _ _
  | succ n ih =>
    intro url depth s
    rw [crawlSubpages]
    by_cases hc : (decide (url ∈ s.visited) || decide (maxDepth < depth)) = true
    · rw [if_pos hc]
      exact stratOK_refl _ _ _
    · rw [if_neg hc]
      have hcc := hc
      simp only [Bool.or_eq_true, decide_eq_true_eq, not_or] at hcc
      obtain ⟨h1, h2⟩ := hcc
      have h2' : depth ≤ maxDepth := Nat.not_lt.mp h2
      cases hf : fetchPage web url with
      | none => exact stratOK_markVisited (Or.inr (Or.inl rfl))
      | some h =>
        have hstep : ∀ s₂ : CrawlState, StratOK (FallbackRec cat maxDepth)
            (FallbackEv base cat url) s₂
            ((extract_links base h url).foldl
              (fun acc link =>
                if shouldFollowLink base link cat then
                  let acc' := crawlSubpages web base cat maxDepth n link (depth + 1) acc
                  { acc' with trace := acc'.trace ++ [Event.sleep] }
                else acc) s₂) := by
          intro s₂
          refine foldl_rel
            (StratOK (FallbackRec cat maxDepth) (FallbackEv base cat url))
            (fun hab hbc => stratOK_trans hab hbc) _ _ ?_
            (fun a => stratOK_refl _ _ _) s₂
          intro a x hx
          by_cases hsf : shouldFollowLink base x cat = true
          · rw [if_pos hsf]
            refine stratOK_trans (stratOK_mono (fun r hr => hr) ?_ (ih x (depth + 1) a))
              (stratOK_addTrace (Or.inl rfl))
            intro e he
            rcases he with he | he | he
            · exact Or.inl he
            · exact Or.inr (Or.inr ⟨x, he, hsf, extract_links_sameDomain hx⟩)
            · exact Or.inr (Or.inr he)
          · rw [if_neg hsf]
            exact stratOK_refl _ _ _
        by_cases hg : 100 <
            ({ extract_content h url with category := cat, depth := some depth } : PageRecord).word_count
        · simp only [if_pos hg]
          refine stratOK_trans (stratOK_markVisited (Or.inr (Or.inl rfl))) ?_
          refine stratOK_trans (stratOK_addRecord
            ⟨⟨hg, by simpa using extract_content_word_count h url⟩, rfl, depth, rfl, h2'⟩) ?_
          split
          · exact hstep _
          · exact stratOK_refl _ _ _
        · simp only [if_neg hg]
          refine stratOK_trans (stratOK_markVisited (Or.inr (Or.inl rfl))) ?_
          split
          · exact hstep _
          · exact stratOK_refl _ _ _

/-- The fallback entry point inherits the `crawlSubpages` invariant with
depth bound 2. -/
theorem crawlFallback_ok (web : String → FetchOutcome) (base cat url : String)
    (s : CrawlState) :
    StratOK (FallbackRec cat 2) (FallbackEv base cat url) s
      (crawlFallback web base cat url s) :=
  crawlSubpages_ok web base cat 2 3 url 0 s

/-- Whatever the dispatched strategy, only gated records are appended and
the timestamp and written files are untouched. -/
theorem crawlCategory_ok (web : String → FetchOutcome) (base name url : String)
    (s : CrawlState) :
    StratOK GoodRec (fun _ => True) s (crawlCategory web base name url s) := by
  unfold crawlCategory
  split
  · exact stratOK_mono (fun r hr => hr.1) (fun _ _ => trivial)
      (crawlSinglePage_ok web name url s)
  · split
    · exact stratOK_mono (fun r hr => hr.1) (fun _ _ => trivial)
        (crawlResultsPages_ok web base url s)
    · split
      · exact stratOK_mono (fun r hr => hr.1) (fun _ _ => trivial)
          (crawlKaikenPages_ok web base url s)
      · split
        · exact stratOK_mono (fun r hr => hr.1) (fun _ _ => trivial)
            (crawlColumnPages_ok web base url s)
        · exact stratOK_mono (fun r hr => hr.1) (fun _ _ => trivial)
            (crawlFallback_ok web base name url s)

/-! ## Claims -/

/-- C1: every PageRecord appended to the run's buffer by any strategy
(single-page, results, kaiken, column, or fallback) has `word_count > 100`
equal to the length of its content with all whitespace characters removed;
a fetched page whose computed count is 100 or less is never appended. -/
theorem claim1_gate_invariant (web : String → FetchOutcome) (base name url : String)
    (s : CrawlState) :
    ∃ new, (crawlCategory web base name url s).scraped = s.scraped ++ new ∧
      ∀ r ∈ new, 100 < r.word_count ∧
        r.word_count = (r.content.data.filter (fun c => !isSpace c)).length := by
  obtain ⟨⟨new, hnew, hp⟩, _⟩ := crawlCategory_ok web base name url s
  exact ⟨new, hnew, fun r hr => hp r hr⟩

theorem claim1_gate_invariant_witness :
    ∃ new, (crawlCategory colWeb exBase "column" colM initState).scraped
        = initState.scraped ++ new ∧
      ∀ r ∈ new, 100 < r.word_count ∧
        r.word_count = (r.content.data.filter (fun c => !isSpace c)).length :=
  claim1_gate_invariant colWeb exBase "column" colM initState

/-- C2 counterexample: in a run of `crawl_all_pages` over the single
`results` category, the main results URL is passed to the page-fetch
operation twice — `_crawl_single_page` fetches it (marking it visited) and
`_crawl_results_pages` then fetches it again directly for link extraction,
although it is already in the visited set. -/
theorem claim2_counterexample :
    (crawlAllPages resWeb exBase [("results", "results.html")] 5 initState).trace.count
      (Event.fetch resM) = 2 := by
  decide

/-- C2 amended: `_crawl_single_page` marks a URL visited at the instant of
its fetch attempt and never fetches an already-visited URL, and the visited
set grows monotonically under every strategy; but the results, kaiken and
column strategies additionally pass the (already visited) main and list
pages to the fetch operation a second time for link extraction. -/
theorem claim2_amended (web : String → FetchOutcome) (cat url : String)
    (s : CrawlState) :
    (url ∈ s.visited → crawlSinglePage web cat url s = s) ∧
    (url ∉ s.visited →
      (crawlSinglePage web cat url s).visited = url :: s.visited ∧
      (crawlSinglePage web cat url s).trace = s.trace ++ [Event.fetch url]) ∧
    (∀ base name, ∀ u ∈ s.visited, u ∈ (crawlCategory web base name url s).visited) := by
  refine ⟨fun h => crawlSinglePage_visited h, ?_, ?_⟩
  · intro h
    obtain ⟨hv, ht, _⟩ := @crawlSinglePage_not_visited web cat url s h
    exact ⟨hv, ht⟩
  · intro base name u hu
    obtain ⟨_, _, hvis, _, _⟩ := crawlCategory_ok web base name url s
    exact hvis u hu

theorem claim2_amended_witness :
    colM ∉ initState.visited ∧
    (crawlSinglePage colWeb "column" colM initState).visited
      = colM :: initState.visited := by
  refine ⟨by decide, ?_⟩
  exact ((claim2_amended colWeb "column" colM initState).2.1 (by decide)).1

/-- C3: for the column strategy on a main page exposing one list link and
one detail link directly, where the list page exposes the same detail
link, exactly 3 records are produced (main, list, one detail) and the
overlapping detail URL is fetched only once. -/
theorem claim3_column_overlap :
    (crawlColumnPages colWeb exBase colM initState).scraped.map (fun r => r.url)
        = [colM, colL, colD] ∧
    (crawlColumnPages colWeb exBase colM initState).scraped.length = 3 ∧
    (∀ r ∈ (crawlColumnPages colWeb exBase colM initState).scraped,
      r.category = "column") ∧
    (crawlColumnPages colWeb exBase colM initState).trace.count (Event.fetch colD)
      = 1 := by
  refine ⟨by decide, by decide, ?_, by decide⟩
  decide

/-- C4 counterexample: in a run of `crawl_all_pages` over the `results`
category, the trace contains two adjacent fetch attempts with no
politeness sleep between them — the main page's record fetch is
immediately followed by its link-extraction re-fetch. -/
theorem claim4_counterexample :
    delayBetweenFetches
      (crawlAllPages resWeb exBase [("results", "results.html")] 5 initState).trace
      = false := by
  decide

/-- C4 amended: the detail-page loops of the results, kaiken and column
strategies do wait the politeness delay after each fetch attempt —
including failed ones — before the next fetch; the main-page and
list-page link-extraction re-fetches, however, follow the preceding fetch
with no delay. -/
theorem claim4_amended (web : String → FetchOutcome) (cat : String)
    (links : List String) (s : CrawlState) :
    ∃ tr, (crawlDetailList web cat links s).trace = s.trace ++ tr ∧
      everyFetchFollowedBySleep tr = true := by
  induction links generalizing s with
  | nil => exact ⟨[], by simp [crawlDetailList], rfl⟩
  | cons l rest ih =>
    by_cases hv : l ∈ s.visited
    · have hstep : crawlDetailList web cat (l :: rest) s = crawlDetailList web cat rest s := by
        simp [crawlDetailList, hv]
      rw [hstep]
      exact ih s
    · have hstep : crawlDetailList web cat (l :: rest) s
          = crawlDetailList web cat rest
            { crawlSinglePage web cat l s with
                trace := (crawlSinglePage web cat l s).trace ++ [Event.sleep] } := by
        simp [crawlDetailList, hv]
      rw [hstep]
      obtain ⟨_, htr, _⟩ := @crawlSinglePage_not_visited web cat l s hv
      obtain ⟨tr', htr', hpol⟩ := ih
        { crawlSinglePage web cat l s with
            trace := (crawlSinglePage web cat l s).trace ++ [Event.sleep] }
      refine ⟨[Event.fetch l, Event.sleep] ++ tr', ?_, ?_⟩
      · rw [htr']
        simp [htr]
      · simpa [everyFetchFollowedBySleep] using hpol

/-- C5: for any category name outside the fixed mapping, the dispatched
strategy is the depth-bounded fallback; it appends only records tagged
with a fetch depth of at most 2, and every fetch it traces is either the
entry URL or a link admitted by both the category-keyword heuristic and
the same-domain link filter. -/
theorem claim5_fallback (web : String → FetchOutcome) (base name url : String)
    (s : CrawlState)
    (hname : name ∉ (["idea", "posture", "results", "kaiken", "column"] : List String)) :
    crawlCategory web base name url s = crawlFallback web base name url s ∧
    ∃ new tr,
      (crawlFallback web base name url s).scraped = s.scraped ++ new ∧
      (crawlFallback web base name url s).trace = s.trace ++ tr ∧
      (∀ r ∈ new, r.category = name ∧ ∃ d, r.depth = some d ∧ d ≤ 2) ∧
      (∀ e ∈ tr, e = Event.sleep ∨ e = Event.fetch url ∨
        ∃ l, e = Event.fetch l ∧ shouldFollowLink base l name = true ∧
          isSameDomain l base = true) := by
  have h1 : name ≠ "idea" := fun h => hname (by rw [h]; decide)
  have h2 : name ≠ "posture" := fun h => hname (by rw [h]; decide)
  have h3 : name ≠ "results" := fun h => hname (by rw [h]; decide)
  have h4 : name ≠ "kaiken" := fun h => hname (by rw [h]; decide)
  have h5 : name ≠ "column" := fun h => hname (by rw [h]; decide)
  constructor
  · simp [crawlCategory, h1, h2, h3, h4, h5]
  · obtain ⟨⟨new, hnew, hp⟩, ⟨tr, htr, hq⟩, _⟩ := crawlFallback_ok web base name url s
    exact ⟨new, tr, hnew, htr,
      fun r hr => ⟨(hp r hr).2.1, (hp r hr).2.2⟩, fun e he => hq e he⟩

theorem claim5_fallback_witness :
    "other" ∉ (["idea", "posture", "results", "kaiken", "column"] : List String) ∧
    crawlCategory fbWeb exBase "other" fbU initState
      = crawlFallback fbWeb exBase "other" fbU initState :=
  ⟨by decide, (claim5_fallback fbWeb exBase "other" fbU initState (by decide)).1⟩

/-- C6: the link set extracted from any HTML document contains no
duplicates, only URLs passing the same-domain check (an empty resolved
host counts as same-domain inside `isSameDomain`), and every member is
produced by resolving some anchor href that is neither empty, an in-page
anchor (`#...`), nor a `javascript:` pseudo-link. -/
theorem claim6_link_extraction (base : String) (h : Html) (cur : String) :
    (extract_links base h cur).Nodup ∧
    (∀ u ∈ extract_links base h cur, isSameDomain u base = true) ∧
    (∀ u ∈ extract_links base h cur, ∃ href ∈ h.anchors,
      href ≠ "" ∧ strStartsWith href "#" = false ∧
      strStartsWith href "javascript:" = false ∧ u = urljoin cur href) := by
  refine ⟨List.nodup_dedup _, fun u hu => extract_links_sameDomain hu, ?_⟩
  intro u hu
  unfold extract_links at hu
  have h1 := List.mem_dedup.mp hu
  obtain ⟨hmap, _⟩ := List.mem_filter.mp h1
  obtain ⟨href, hhref, hEq⟩ := List.mem_map.mp hmap
  obtain ⟨hanch, hcond⟩ := List.mem_filter.mp hhref
  rw [Bool.not_eq_true'] at hcond
  simp only [Bool.or_eq_false_iff, decide_eq_false_iff_not] at hcond
  exact ⟨href, hanch, hcond.1.1, hcond.1.2, hcond.2, hEq.symm⟩

theorem claim6_link_extraction_witness :
    (extract_links exBase (pageHtml [colL, colD]) colM).Nodup ∧
    (∀ u ∈ extract_links exBase (pageHtml [colL, colD]) colM,
      isSameDomain u exBase = true) ∧
    (∀ u ∈ extract_links exBase (pageHtml [colL, colD]) colM,
      ∃ href ∈ (pageHtml [colL, colD]).anchors,
        href ≠ "" ∧ strStartsWith href "#" = false ∧
        strStartsWith href "javascript:" = false ∧ u = urljoin colM href) :=
  claim6_link_extraction exBase (pageHtml [colL, colD]) colM

/-- A failed fetch leaves the record buffer untouched. -/
theorem crawlSinglePage_fetch_failed {web : String → FetchOutcome} {cat url : String}
    {s : CrawlState} (hnone : fetchPage web url = none) :
    (crawlSinglePage web cat url s).scraped = s.scraped := by
  by_cases hv : url ∈ s.visited
  · rw [crawlSinglePage_visited hv]
  · rcases (@crawlSinglePage_not_visited web cat url s hv).2.2.1 with
      h | ⟨hh, hsome, _⟩
    · exact h
    · rw [hnone] at hsome
      cases hsome

/-- C8: the page-fetch operation returns the body exactly when the
underlying request succeeds, and returns the failure value on network
errors, timeouts and non-2xx statuses; a failed fetch adds no record, and
the detail-page loop continues with the remaining links after a failure,
so no single-page fetch failure aborts the category. -/
theorem claim8_fetch_boundary (web : String → FetchOutcome) (url : String) :
    ((∃ b, fetchPage web url = some b) ↔ ∃ h, web url = FetchOutcome.ok h) ∧
    (web url = FetchOutcome.netError → fetchPage web url = none) ∧
    (web url = FetchOutcome.timeout → fetchPage web url = none) ∧
    (∀ st, web url = FetchOutcome.httpError st → fetchPage web url = none) ∧
    (fetchPage web url = none → ∀ cat s,
      (crawlSinglePage web cat url s).scraped = s.scraped) ∧
    (∀ cat rest s, fetchPage web url = none →
      ∃ s', crawlDetailList web cat (url :: rest) s = crawlDetailList web cat rest s' ∧
        s'.scraped = s.scraped) := by
  refine ⟨?_, ?_, ?_, ?_, ?_, ?_⟩
  · cases hw : web url <;> simp [fetchPage, hw]
  · intro hw; simp [fetchPage, hw]
  · intro hw; simp [fetchPage, hw]
  · intro st hw; simp [fetchPage, hw]
  · intro hnone cat s
    exact crawlSinglePage_fetch_failed hnone
  · intro cat rest s hnone
    refine ⟨_, rfl, ?_⟩
    by_cases hv : url ∈ s.visited
    · simp only [if_pos hv]
    · simp only [if_neg hv]
      exact crawlSinglePage_fetch_failed hnone

theorem claim8_fetch_boundary_witness :
    fetchPage resWeb nopeU = none ∧
    (crawlSinglePage resWeb "results" nopeU initState).scraped
      = initState.scraped := by
  refine ⟨(claim8_fetch_boundary resWeb nopeU).2.1 (by decide), ?_⟩
  exact (claim8_fetch_boundary resWeb nopeU).2.2.2.2.1 (by decide) "results" initState

theorem saveCategoryData_empty {now : Nat} {cat : String} {s : CrawlState}
    (h : s.scraped.filter (fun r => r.category == cat) = []) :
    saveCategoryData now cat s = (none, s) := by
  simp [saveCategoryData, h]

theorem saveCategoryData_nonempty {now : Nat} {cat : String} {s : CrawlState}
    (h : s.scraped.filter (fun r => r.category == cat) ≠ []) :
    saveCategoryData now cat s =
      (some ⟨cat ++ "_" ++ toString (s.timestamp.getD now) ++ ".json",
             s.scraped.filter (fun r => r.category == cat)⟩,
       { visited := s.visited,
         scraped := s.scraped.filter (fun r => !(r.category == cat)),
         timestamp := some (s.timestamp.getD now),
         savedFiles := s.savedFiles ++
           [⟨cat ++ "_" ++ toString (s.timestamp.getD now) ++ ".json",
             s.scraped.filter (fun r => r.category == cat)⟩],
         trace := s.trace }) := by
  unfold saveCategoryData
  rw [if_neg h]
  cases hts : s.timestamp with
  | none => simp [hts]
  | some t => simp [hts]

/-- Folding a step that preserves an invariant preserves it. -/
theorem foldl_inv {σ α : Type} (I : σ → Prop) (f : σ → α → σ) (l : List α)
    (hf : ∀ a x, x ∈ l → I a → I (f a x)) : ∀ s, I s → I (l.foldl f s) := by
  induction l with
  | nil => intro s hs; simpa using hs
  | cons x xs ih =>
    intro s hs
    have h1 : I (f s x) := hf s x (List.mem_cons_self x xs) hs
    simpa using ih (fun a y hy => hf a y (List.mem_cons_of_mem x hy)) (f s x) h1

/-- C7: the per-category write is a no-op returning `none` when the buffer
holds no records of the category; otherwise it writes exactly that
category's buffered records to `{category}_{timestamp}.json`, removes
exactly those records from the buffer, and returns the written file; and
within a run of `crawl_all_pages` every written file carries the single
run timestamp frozen at run start. -/
theorem claim7_category_writer :
    (∀ (now : Nat) (cat : String) (s : CrawlState),
      (s.scraped.filter (fun r => r.category == cat) = [] →
        saveCategoryData now cat s = (none, s)) ∧
      (s.scraped.filter (fun r => r.category == cat) ≠ [] →
        ∃ f, (saveCategoryData now cat s).1 = some f ∧
          f.name = cat ++ "_" ++ toString (s.timestamp.getD now) ++ ".json" ∧
          f.contents = s.scraped.filter (fun r => r.category == cat) ∧
          (saveCategoryData now cat s).2.scraped
            = s.scraped.filter (fun r => !(r.category == cat)) ∧
          (saveCategoryData now cat s).2.savedFiles = s.savedFiles ++ [f])) ∧
    (∀ (web : String → FetchOutcome) (base : String)
        (targets : List (String × String)) (now : Nat) (s : CrawlState),
      s.timestamp = none → s.savedFiles = [] →
      ∀ f ∈ (crawlAllPages web base targets now s).savedFiles,
        ∃ cat, cat ∈ targets.map Prod.fst ∧
          f.name = cat ++ "_" ++ toString now ++ ".json") := by
  constructor
  · intro now cat s
    refine ⟨fun h => saveCategoryData_empty h, fun h => ?_⟩
    rw [saveCategoryData_nonempty h]
    exact ⟨_, rfl, rfl, rfl, rfl, rfl⟩
  · intro web base targets now s hts hsf
    unfold crawlAllPages
    rw [if_pos hts]
    have hinv := foldl_inv
      (fun st : CrawlState => st.timestamp = some now ∧
        ∀ f ∈ st.savedFiles, ∃ cat, cat ∈ targets.map Prod.fst ∧
          f.name = cat ++ "_" ++ toString now ++ ".json")
      (fun acc nm =>
        let acc1 := crawlCategory web base nm.1 (urljoin base nm.2) acc
        let acc2 := (saveCategoryData now nm.1 acc1).2
        { acc2 with trace := acc2.trace ++ [Event.sleep] })
      targets ?_ { s with timestamp := some now } ⟨rfl, ?_⟩
    · exact hinv.2
    · intro a x hx ⟨hats, hafiles⟩
      obtain ⟨_, _, _, hts1, hsf1⟩ :=
        crawlCategory_ok web base x.1 (urljoin base x.2) a
      have hats1 : (crawlCategory web base x.1 (urljoin base x.2) a).timestamp
          = some now := hts1.trans hats
      by_cases hemp : (crawlCategory web base x.1 (urljoin base x.2) a).scraped.filter
          (fun r => r.category == x.1) = []
      · refine ⟨?_, ?_⟩
        · simp only [saveCategoryData_empty hemp]
          exact hats1
        · simp only [saveCategoryData_empty hemp]
          intro f hf
          rw [hsf1] at hf
          exact hafiles f hf
      · refine ⟨?_, ?_⟩
        · simp only [saveCategoryData_nonempty hemp]
          rw [hats1]
          rfl
        · simp only [saveCategoryData_nonempty hemp]
          intro f hf
          rw [hsf1, hats1] at hf
          rcases List.mem_append.mp hf with hf | hf
          · exact hafiles f hf
          · rw [List.mem_singleton] at hf
            subst hf
            exact ⟨x.1, List.mem_map.mpr ⟨x, hx, rfl⟩, rfl⟩
    · intro f hf
      rw [hsf] at hf
      cases hf

theorem claim7_category_writer_witness :
    (saveCategoryData 5 "kaiken" initState = (none, initState)) ∧
    (∃ f, (saveCategoryData 7 "column" (crawlColumnPages colWeb exBase colM initState)).1
        = some f ∧
      f.name = "column" ++ "_" ++ toString (7 : Nat) ++ ".json") := by
  refine ⟨(claim7_category_writer.1 5 "kaiken" initState).1 (by decide), ?_⟩
  obtain ⟨f, h1, h2, -⟩ :=
    (claim7_category_writer.1 7 "column" (crawlColumnPages colWeb exBase colM initState)).2
      (by decide)
  exact ⟨f, h1, h2⟩

/-- C9 counterexample: (a) a fallback selector's `<time>` element with a
localized `YYYY年MM月DD日` text but no `datetime` attribute yields `none`
— the localized text pattern is only consulted for the article-title
element, not for the fallback selectors; (b) a `datetime` attribute from
the article-title element is returned verbatim, not normalized to
`YYYY-MM-DD`. -/
theorem claim9_counterexample :
    (extractPublishDate html9a = none ∧
      html9a.articleTitTime = none ∧
      html9a.altTimes.head? = some (some ⟨none, "2014年06月05日"⟩) ∧
      searchJpDate "2014年06月05日".data = some ("2014", "06", "05")) ∧
    (extractPublishDate html9b = some "2014-06-05T00:00:00+09:00" ∧
      isYmdFormat "2014-06-05T00:00:00+09:00" = false) := by
  decide

theorem tryAlt_eq_match (t : TimeTag) (rest : List (Option TimeTag)) :
    tryAlternatives (some t :: rest)
      = match t.datetime with
        | some d => if d = "" then tryAlternatives rest else some d
        | none => tryAlternatives rest := rfl

/-- C9 amended: publish-date extraction first consults the time element of
the article-title region: a non-empty `datetime` attribute is returned
verbatim, else a localized `YYYY年MM月DD日` text is normalized to
`YYYY-MM-DD`; when the region yields nothing the fallback selectors are
tried in order, but they accept only a non-empty `datetime` attribute
(returned verbatim, text never consulted); `none` is returned when nothing
matches. -/
theorem claim9_amended :
    (∀ h t d, h.articleTitTime = some t → t.datetime = some d → d ≠ "" →
      extractPublishDate h = some d) ∧
    (∀ h t y m d, h.articleTitTime = some t →
      (t.datetime = none ∨ t.datetime = some "") →
      searchJpDate t.text.data = some (y, m, d) →
      extractPublishDate h = some (y ++ "-" ++ m ++ "-" ++ d)) ∧
    (∀ h, h.articleTitTime = none →
      extractPublishDate h = tryAlternatives h.altTimes) ∧
    (∀ alts d, tryAlternatives alts = some d →
      ∃ o ∈ alts, ∃ t, o = some t ∧ t.datetime = some d) ∧
    (∀ alts, (∀ o ∈ alts, ∀ t, o = some t → t.datetime = none ∨ t.datetime = some "") →
      tryAlternatives alts = none) := by
  refine ⟨?_, ?_, ?_, ?_, ?_⟩
  · intro h t d hat hdt hne
    simp [extractPublishDate, hat, hdt, hne]
  · intro h t y m d hat hdt hjp
    have htext : t.text ≠ "" := by
      intro he
      have hnone : searchJpDate (("" : String)).data = none := rfl
      rw [he, hnone] at hjp
      cases hjp
    rcases hdt with hdt | hdt <;>
      simp [extractPublishDate, hat, hdt, htext, hjp]
  · intro h hat
    simp [extractPublishDate, hat]
  · intro alts d
    induction alts with
    | nil => intro hsome; cases hsome
    | cons o rest ih =>
      intro hsome
      match o with
      | none =>
        obtain ⟨o', ho', t, hto, htd⟩ := ih hsome
        exact ⟨o', List.mem_cons_of_mem _ ho', t, hto, htd⟩
      | some t =>
        cases hdt : t.datetime with
        | none =>
          simp only [tryAlt_eq_match, hdt] at hsome
          obtain ⟨o', ho', t', hto, htd⟩ := ih hsome
          exact ⟨o', List.mem_cons_of_mem _ ho', t', hto, htd⟩
        | some d' =>
          by_cases he : d' = ""
          · simp only [tryAlt_eq_match, hdt, if_pos he] at hsome
            obtain ⟨o', ho', t', hto, htd⟩ := ih hsome
            exact ⟨o', List.mem_cons_of_mem _ ho', t', hto, htd⟩
          · simp only [tryAlt_eq_match, hdt, if_neg he] at hsome
            cases hsome
            exact ⟨some t, List.mem_cons_self _ _, t, rfl, hdt⟩
  · intro alts
    induction alts with
    | nil => intro _; rfl
    | cons o rest ih =>
      intro hall
      have hrest := ih (fun o' ho' t hto => hall o' (List.mem_cons_of_mem _ ho') t hto)
      match o with
      | none => rw [tryAlternatives]; exact hrest
      | some t =>
        rcases hall (some t) (List.mem_cons_self _ _) t rfl with hdt | hdt
        · simp only [tryAlt_eq_match, hdt]; exact hrest
        · simp only [tryAlt_eq_match, hdt, if_pos trivial]
          exact hrest

theorem claim9_amended_witness :
    extractPublishDate
        { titleTag := none, h1Tag := none, metaDescription := none,
          ogDescription := none,
          articleTitTime := some ⟨none, "2014年06月05日"⟩,
          altTimes := [], mainContent := none, bodyText := "", anchors := [] }
      = some ("2014" ++ "-" ++ "06" ++ "-" ++ "05") :=
  claim9_amended.2.1
    { titleTag := none, h1Tag := none, metaDescription := none,
      ogDescription := none,
      articleTitTime := some ⟨none, "2014年06月05日"⟩,
      altTimes := [], mainContent := none, bodyText := "", anchors := [] }
    ⟨none, "2014年06月05日"⟩ "2014" "06" "05" rfl (Or.inl rfl) (by decide)

/-- C10: the content string produced by `extract_content` contains no
newline character — the whitespace-collapsing substitution in
`_clean_text` runs first and replaces every whitespace run (newlines
included) with a single space, so the newline-joined rendering of the
content region is flattened to one line. -/
theorem claim10_no_newline (h : Html) (url : String) :
    (extract_content h url).content.data.contains '\n' = false := by
  have hnn : '\n' ∉ (extract_content h url).content.data :=
    cleanTextL_no_nl _
  cases hb : (extract_content h url).content.data.contains '\n' with
  | false => rfl
  | true => exact absurd (List.mem_of_elem_eq_true hb) hnn

end TakaichiRAG
